import Mathlib

/-!
Verification of the reckless asynchronous-logging core (src/src/asynclog.cpp)
against its natural-language specification.

The development shallowly embeds the relevant parts of the C++ source:
the output buffer (reserve / commit / flush) together with an abstract
writer, the file writer's write loop and errno mapping, the per-producer
input ring buffer (allocate_input_frame, advance_frame_pointer,
discard_input_frame, wraparound, wait_input_consumed), and the formatter
front-end (generic_format_int, generic_format_float, next_specifier).

Pointers into buffers are modelled as byte offsets (Nat) from the base
of the buffer; buffer contents are lists of characters.  Fallible C++
paths (throw std::bad_alloc) are modelled with Except.
-/

namespace Reckless

/-- The writer result enum from dlog: SUCCESS, ERROR_TRY_LATER,
ERROR_GIVE_UP; the additional constructor `fatal` stands for the
`throw std::runtime_error` path of `file_writer::write`. -/
inductive WResult where
  | success
  | tryLater
  | giveUp
  | fatal
deriving DecidableEq

/-- State of `dlog::output_buffer` together with its attached writer.
`cap` is `pbuffer_end_ - pbuffer_` (max_capacity), `committed` the bytes
in `[pbuffer_, pcommit_end_)`.  The writer is modelled by `plan`, the
sequence of results the next calls to `writer::write` will return (an
exhausted plan answers SUCCESS), by `sent`, the concatenation of all
byte batches ever passed to `writer::write`, and by `delivered`, the
concatenation of the batches for which the writer answered SUCCESS. -/
structure OutputBuffer where
  cap : Nat
  committed : List Char
  sent : List Char
  delivered : List Char
  plan : List WResult
deriving DecidableEq

/-- All bytes the program ever placed in the output buffer: the batches
handed to the writer followed by the bytes still staged. -/
def outStream (b : OutputBuffer) : List Char :=
  b.sent ++ b.committed

/-- `dlog::output_buffer::flush`: calls `pwriter_->write(pbuffer_,
pcommit_end_ - pbuffer_)` and then unconditionally resets `pcommit_end_`
to `pbuffer_` — the writer's result is ignored by the source. -/
def flush (b : OutputBuffer) : OutputBuffer :=
  let r := b.plan.headD .success
  { b with
    committed := []
    sent := b.sent ++ b.committed
    delivered := b.delivered ++ (if r = .success then b.committed else [])
    plan := b.plan.tail }

/-- `dlog::output_buffer::reserve`: if the free space
`pbuffer_end_ - pcommit_end_` is smaller than `size`, flush; if after
that the whole capacity `pbuffer_end_ - pbuffer_` is still smaller than
`size`, throw `std::bad_alloc`.  Returns the offset of `pcommit_end_`. -/
def reserve (n : Nat) (b : OutputBuffer) : Except Unit (Nat × OutputBuffer) :=
  if b.cap - b.committed.length < n then
    let b1 := flush b
    if b1.cap < n then .error ()
    else .ok (b1.committed.length, b1)
  else .ok (b.committed.length, b)

/-- The `memcpy` into the pointer returned by `reserve` followed by
`output_buffer::commit(s.length)`: the bytes land at `pcommit_end_` and
the cursor advances past them. -/
def writeCommit (s : List Char) (b : OutputBuffer) : OutputBuffer :=
  { b with committed := b.committed ++ s }

/-- The reserve / memcpy / commit sequence every formatter in the source
uses to append a byte string to the output buffer. -/
def appendBytes (s : List Char) (b : OutputBuffer) : Except Unit OutputBuffer := do
  let rb ← reserve s.length b
  pure (writeCommit s rb.2)

theorem flush_cap (b : OutputBuffer) : (flush b).cap = b.cap := rfl

theorem outStream_flush (b : OutputBuffer) : outStream (flush b) = outStream b := by
  simp [outStream, flush]

theorem appendBytes_ok (s : List Char) (b : OutputBuffer)
    (h : s.length ≤ b.cap) :
    ∃ b1, appendBytes s b = .ok b1 ∧ outStream b1 = outStream b ++ s ∧ b1.cap = b.cap := by
  unfold appendBytes reserve
  by_cases hfree : b.cap - b.committed.length < s.length
  · have hcap : ¬ (flush b).cap < s.length := by
      simp only [flush_cap]; omega
    refine ⟨writeCommit s (flush b), ?_, ?_, rfl⟩
    · simp [hfree, hcap, Except.bind]
    · simp [writeCommit, outStream, flush]
  · refine ⟨writeCommit s b, ?_, ?_, rfl⟩
    · simp [hfree, Except.bind]
    · simp [writeCommit, outStream]

/-! ## Input ring buffer -/

/-- Positions of `dlog::detail::input_buffer` as byte offsets from
`pbegin_`: `pinput_start_`, `pinput_end_`, `pcommit_end_`.  The fresh
buffer (the constructor) sets all three to `pbegin_`, i.e. offset 0. -/
structure InBuf where
  inputStart : Nat
  inputEnd : Nat
  commitEnd : Nat
deriving DecidableEq

/-- The freshly constructed input buffer. -/
def freshInBuf : InBuf := ⟨0, 0, 0⟩

/-- `dlog::detail::input_buffer::advance_frame_pointer`: move an offset
forward by `distance`; if the result reaches the end of the buffer
(`remaining == 0`), wrap to the beginning. -/
def advance_frame_pointer (CAP p distance : Nat) : Nat :=
  let q := p + distance
  if CAP - q = 0 then 0 else q

/-- Outcome of one iteration of the `while(true)` loop in
`allocate_input_frame`: either a frame is granted (with the returned
offset, the offset where a WRAPAROUND_MARKER was stored, if any, and
the updated buffer), or the producer blocks in `wait_input_consumed`
and retries. -/
inductive AllocOutcome where
  | grant (ret : Nat) (markerAt : Option Nat) (b : InBuf)
  | wait
deriving DecidableEq

/-- One attempt of `dlog::detail::input_buffer::allocate_input_frame`:
`free = pinput_start - pinput_end` as a pointer difference; if it is
positive the free region is contiguous and the frame is claimed at
`pinput_end` when `size < free`; otherwise the free region is split
into `free1 = TLS_INPUT_BUFFER_SIZE - (pinput_end - pbegin_)` and
`free2 = pinput_start - pbegin_`, the frame is claimed at `pinput_end`
when `size < free1`, else a WRAPAROUND_MARKER is stored at `pinput_end`
and the frame is claimed at `pbegin_` when `size < free2`; in the
remaining cases the producer waits. -/
def allocate_input_frame (CAP size : Nat) (b : InBuf) : AllocOutcome :=
  if b.inputEnd < b.inputStart then
    if size < b.inputStart - b.inputEnd then
      .grant b.inputEnd none
        { b with inputEnd := advance_frame_pointer CAP b.inputEnd size }
    else .wait
  else
    if size < CAP - b.inputEnd then
      .grant b.inputEnd none
        { b with inputEnd := advance_frame_pointer CAP b.inputEnd size }
    else if size < b.inputStart then
      .grant 0 (some b.inputEnd)
        { b with inputEnd := advance_frame_pointer CAP 0 size }
    else .wait

/-- Modelled from the spec: the body of `input_buffer::commit` lives in
the header `dlog.hpp`, which is not part of the sources; per the spec
it publishes `commit_end := input_end` (and enqueues a commit extent,
which does not change the buffer positions). -/
def commitStep (b : InBuf) : InBuf :=
  { b with commitEnd := b.inputEnd }

/-- `dlog::detail::input_buffer::discard_input_frame`: the consumer
advances `pinput_start_` by the frame size via
`advance_frame_pointer` (and signals the input-consumed event). -/
def discard_input_frame (CAP size : Nat) (b : InBuf) : InBuf :=
  { b with inputStart := advance_frame_pointer CAP b.inputStart size }

/-- Line 1 of asynclog.cpp is `#define NDEBUG`, so all `assert`
statements and the `#ifndef NDEBUG` block in `wraparound` are compiled
out of the translation unit. -/
def NDEBUG : Bool := true

/-- `dlog::detail::input_buffer::wraparound`, with the word currently
stored at `pinput_start_` abstracted to the flag `markerAtStart`
(whether it equals WRAPAROUND_MARKER).  The marker check exists only
in an `#ifndef NDEBUG` block; `none` models a failing assertion.
The function stores `pbegin_` into `pinput_start_` and returns
`pbegin_` (offset 0). -/
def wraparound (markerAtStart : Bool) (b : InBuf) : Option (Nat × InBuf) :=
  if NDEBUG = false ∧ markerAtStart = false then none
  else some (0, { b with inputStart := 0 })

/-- Producer-side calls made by `wait_input_consumed`, in order. -/
inductive PAction where
  | commitCall
  | waitCall
deriving DecidableEq

/-- `dlog::detail::input_buffer::wait_input_consumed`: if
`pcommit_end_ == pinput_start_` the producer first calls `commit()`,
then in every case waits on the input-consumed event.  Returns the
sequence of calls made and the buffer state in which the wait is
entered. -/
def wait_input_consumed (b : InBuf) : List PAction × InBuf :=
  if b.commitEnd = b.inputStart then ([.commitCall, .waitCall], commitStep b)
  else ([.waitCall], b)

/-! ## Operation sequences on the input buffer -/

/-- The producer operations (`alloc`, `commit`) and consumer operations
(`discard`, `wrap`) that mutate the input-buffer positions. -/
inductive BufOp where
  | alloc (size : Nat)
  | commit
  | discard (size : Nat)
  | wrap
deriving DecidableEq

/-- One operation applied to the buffer, guarded by the caller
contracts stated in the spec and asserted in the source: an allocation
size is `FRAME_ALIGNMENT`-aligned and at most `CAP - FRAME_ALIGNMENT`;
a discard distance is aligned and never moves the pointer past the end
of the buffer.  A `wait` outcome of an allocation attempt leaves the
positions unchanged (the producer blocks and retries).  `none` marks a
call outside its contract. -/
def step (CAP FA : Nat) (b : InBuf) : BufOp → Option InBuf
  | .alloc size =>
      if size % FA = 0 ∧ size + FA ≤ CAP then
        match allocate_input_frame CAP size b with
        | .grant _ _ b1 => some b1
        | .wait => some b
      else none
  | .commit => some (commitStep b)
  | .discard size =>
      if size % FA = 0 ∧ b.inputStart + size ≤ CAP then
        some (discard_input_frame CAP size b)
      else none
  | .wrap => some { b with inputStart := 0 }

/-- Run a sequence of operations from a given buffer state. -/
def runOps (CAP FA : Nat) (b : InBuf) : List BufOp → Option InBuf
  | [] => some b
  | op :: ops =>
      match step CAP FA b op with
      | some b1 => runOps CAP FA b1 ops
      | none => none

/-- Invariant 1 of the spec: the three positions are
`FRAME_ALIGNMENT`-aligned and strictly less than `begin + CAP`. -/
def InvB (CAP FA : Nat) (b : InBuf) : Prop :=
  b.inputStart % FA = 0 ∧ b.inputEnd % FA = 0 ∧ b.commitEnd % FA = 0 ∧
  b.inputStart < CAP ∧ b.inputEnd < CAP ∧ b.commitEnd < CAP

instance (CAP FA : Nat) (b : InBuf) : Decidable (InvB CAP FA b) := by
  unfold InvB; infer_instance

/-! ## File writer -/

/-- The errno values named by `dlog::file_writer::write`; `other`
stands for every errno not named in the switch. -/
inductive Errno where
  | efbig | eio | epipe | erange | econnreset | einval | enxio
  | eacces | enetdown | enetunreach | enospc | eintr | other
deriving DecidableEq

/-- The outcome of one `::write` system call: either `written` bytes
were consumed, or the call failed with an errno. -/
inductive WriteOutcome where
  | ok (written : Nat)
  | err (e : Errno)
deriving DecidableEq

/-- The errno switch at the end of `file_writer::write`: ten errno
values map to ERROR_GIVE_UP, ENOSPC to ERROR_TRY_LATER, and the default
case throws (`fatal`). -/
def errnoResult : Errno → WResult
  | .efbig => .giveUp
  | .eio => .giveUp
  | .epipe => .giveUp
  | .erange => .giveUp
  | .econnreset => .giveUp
  | .einval => .giveUp
  | .enxio => .giveUp
  | .eacces => .giveUp
  | .enetdown => .giveUp
  | .enetunreach => .giveUp
  | .enospc => .tryLater
  | _ => .fatal

/-- The retry loop of `file_writer::write`, driven by the list of
system-call outcomes the kernel will produce: a failed call with EINTR
is retried, any other failure breaks out of the loop carrying its
errno, a successful call advances the data pointer and decreases
`count`.  Returns `some none` when the loop exits with `count == 0`,
`some (some e)` when it breaks with errno `e`, and `none` when the
modelled outcome list is exhausted while the loop would keep calling
`::write`. -/
def writeLoop : List WriteOutcome → Nat → Option (Option Errno)
  | _, 0 => some none
  | [], _ + 1 => none
  | .err e :: os, c + 1 =>
      if e = .eintr then writeLoop os (c + 1) else some (some e)
  | .ok n :: os, c + 1 => writeLoop os (c + 1 - n)

/-- `dlog::file_writer::write(pbuffer, count)`: run the loop; if all
`count` bytes were written return SUCCESS, otherwise map the errno of
the failed call through the switch. -/
def file_writer_write (count : Nat) (os : List WriteOutcome) : Option WResult :=
  (writeLoop os count).map fun r =>
    match r with
    | none => .success
    | some e => errnoResult e

/-- Claim-side reading of C7: all `count` bytes are written, resuming
after EINTR failures and after partial writes. -/
def deliversAll : List WriteOutcome → Nat → Bool
  | _, 0 => true
  | [], _ + 1 => false
  | .err e :: os, c + 1 => e = .eintr && deliversAll os (c + 1)
  | .ok n :: os, c + 1 => deliversAll os (c + 1 - n)

/-- Claim-side reading of C7: the errno of the first system-call
failure other than EINTR met before the byte count is exhausted. -/
def firstFailure : List WriteOutcome → Nat → Option Errno
  | _, 0 => none
  | [], _ + 1 => none
  | .err e :: os, c + 1 =>
      if e = .eintr then firstFailure os (c + 1) else some e
  | .ok n :: os, c + 1 => firstFailure os (c + 1 - n)

/-- The ten errno values the claim maps to ERROR_GIVE_UP. -/
def giveUpErrnos : List Errno :=
  [.efbig, .eio, .epipe, .erange, .econnreset, .einval, .enxio,
   .eacces, .enetdown, .enetunreach]

/-! ## Formatter front-end -/

/-- The decimal representation `std::ostringstream << v` produces for a
C++ integer value: the usual base-10 digits, preceded by a minus sign
for negative values. -/
def decimalRep (v : Int) : List Char :=
  (toString v).toList

/-- `generic_format_int`: on specifier `d` write the decimal
representation through reserve / memcpy / commit and advance the format
pointer by one; the `x` and `b` branches and the final else branch all
return false without touching anything.  The format pointer is modelled
as the remaining characters of the format string (the character the
pointer rests on first); an empty list stands for the pointer at the
terminating NUL. -/
def generic_format_int (v : Int) (fmt : List Char) (b : OutputBuffer) :
    Except Unit (Bool × List Char × OutputBuffer) :=
  match fmt with
  | [] => .ok (false, fmt, b)
  | f :: rest =>
      if f = 'd' then do
        let b1 ← appendBytes (decimalRep v) b
        .ok (true, rest, b1)
      else if f = 'x' then .ok (false, fmt, b)
      else if f = 'b' then .ok (false, fmt, b)
      else .ok (false, fmt, b)

/-- A C++ floating-point value as `generic_format_float` consumes it,
abstracted to the data the source extracts from it: `intDigits`, the
digit count computed from `std::log10`, and `rendered`, the character
sequence `sprintf` with format `%f` (six fractional digits; `%Lf` for
long double) produces for it, whose length is the value `sprintf`
returns. -/
structure FloatVal where
  intDigits : Nat
  rendered : List Char

/-- `generic_format_float`: any specifier other than `d` returns false
with nothing changed; on `d` the source reserves
`1 + digits + 1 + 6 + 1` bytes, lets `sprintf` write the rendering,
commits exactly the byte count `sprintf` returned, and advances the
format pointer by one. -/
def generic_format_float (v : FloatVal) (fmt : List Char) (b : OutputBuffer) :
    Except Unit (Bool × List Char × OutputBuffer) :=
  match fmt with
  | [] => .ok (false, fmt, b)
  | f :: rest =>
      if f = 'd' then do
        let rb ← reserve (1 + v.intDigits + 1 + 6 + 1) b
        .ok (true, rest, writeCommit v.rendered rb.2)
      else .ok (false, fmt, b)

/-- The scanning loop of `dlog::formatter::next_specifier`, with the
literal segment accumulated character by character in `chunk`: `strchr`
locates the first `%` and the source copies the whole segment before it
through one reserve / memcpy / commit, which is exactly what flushing
the accumulated `chunk` with one `appendBytes` does.  When the string
ends without a `%` the remaining literal bytes are copied
(`format(pbuffer, pformat)`) and null is returned; a doubled `%%`
appends a single `%` byte (`append_percent`) and the scan continues;
otherwise the pointer one past the `%` is returned — also when the `%`
is the last character, in which case the returned pointer rests on the
terminating NUL (the empty remainder). -/
def nextSpecScan (chunk fmt : List Char) (b : OutputBuffer) :
    Except Unit (Option (List Char) × OutputBuffer) :=
  match fmt with
  | [] => do
      let b1 ← appendBytes chunk b
      .ok (none, b1)
  | c :: rest =>
      if c = '%' then
        match rest with
        | [] => do
            let b1 ← appendBytes chunk b
            .ok (some [], b1)
        | c2 :: rest2 =>
            if c2 = '%' then do
              let b1 ← appendBytes chunk b
              let b2 ← appendBytes ['%'] b1
              nextSpecScan [] rest2 b2
            else do
              let b1 ← appendBytes chunk b
              .ok (some (c2 :: rest2), b1)
      else nextSpecScan (chunk ++ [c]) rest b

/-- `dlog::formatter::next_specifier`, entered with an empty literal
segment. -/
def next_specifier (fmt : List Char) (b : OutputBuffer) :
    Except Unit (Option (List Char) × OutputBuffer) :=
  nextSpecScan [] fmt b

/-- Claim-side reading of C9: walking the format string, literal bytes
are copied verbatim, each doubled `%%` collapses to one `%`, and the
walk stops after an undoubled `%`, yielding the remaining characters
(or `none` when the string ends without one).  The first component is
the byte sequence copied to the output buffer, the second the returned
pointer. -/
def collapseSpec : List Char → List Char × Option (List Char)
  | [] => ([], none)
  | c :: rest =>
      if c = '%' then
        match rest with
        | [] => ([], some [])
        | c2 :: rest2 =>
            if c2 = '%' then
              let pr := collapseSpec rest2
              ('%' :: pr.1, pr.2)
            else ([], some (c2 :: rest2))
      else
        let pr := collapseSpec rest
        (c :: pr.1, pr.2)

/-! ## Theorems -/

/-- An output buffer staging the bytes "ab", whose writer will answer
ERROR_TRY_LATER to the first write and SUCCESS to the second. -/
def cexBuf : OutputBuffer :=
  { cap := 8, committed := ['a', 'b'], sent := [], delivered := [],
    plan := [.tryLater, .success] }

/-- C1 counterexample: flushing `cexBuf` meets ERROR_TRY_LATER, a
second flush meets SUCCESS, so the writer eventually returned SUCCESS
(the plan is exhausted), yet the bytes delivered differ from the bytes
produced: the "ab" batch was dropped when flush reset the buffer. -/
theorem flush_try_later_loses_bytes_cex :
    (flush (flush cexBuf)).plan = [] ∧
    (flush (flush cexBuf)).delivered ≠
      (flush (flush cexBuf)).sent ++ (flush (flush cexBuf)).committed := by
  decide

/-- C1 amended: `output_buffer::flush` ignores the writer's result and
unconditionally resets `pcommit_end_` to `pbuffer_`; when the writer
answers ERROR_TRY_LATER the staged bytes are passed to the writer once
and then dropped from the buffer — they are not retained for the next
flush, so a transient failure loses them. -/
theorem flush_resets_regardless_of_result (b : OutputBuffer) :
    (flush b).committed = [] ∧
    (flush b).sent = b.sent ++ b.committed ∧
    (b.plan.headD .success ≠ .success → (flush b).delivered = b.delivered) := by
  refine ⟨rfl, rfl, fun h => ?_⟩
  show b.delivered ++ (if b.plan.headD .success = .success then b.committed else []) =
    b.delivered
  rw [if_neg h]
  simp

/-- Witness for C1 at `cexBuf`: the first planned result is
ERROR_TRY_LATER, and the flush drops the staged bytes while delivering
nothing. -/
theorem flush_resets_regardless_of_result_witness :
    (flush cexBuf).committed = [] ∧
    (flush cexBuf).sent = cexBuf.sent ++ cexBuf.committed ∧
    (flush cexBuf).delivered = cexBuf.delivered :=
  ⟨(flush_resets_regardless_of_result cexBuf).1,
   (flush_resets_regardless_of_result cexBuf).2.1,
   (flush_resets_regardless_of_result cexBuf).2.2 (by decide)⟩

/-- An input-buffer state with a nonzero read position, used with a
non-marker word at `pinput_start_`. -/
def cexInBuf : InBuf := ⟨16, 24, 24⟩

/-- C4 counterexample: the word at `pinput_start_` is not
WRAPAROUND_MARKER, yet `wraparound` does not fail an assertion — it
resets `pinput_start_` to `pbegin_` anyway, because line 1 of
asynclog.cpp defines NDEBUG and the check sits in `#ifndef NDEBUG`. -/
theorem wraparound_skips_assert_cex :
    wraparound false cexInBuf = some (0, ⟨0, 24, 24⟩) ∧
    wraparound false cexInBuf ≠ none := by
  decide

/-- C4 amended: `wraparound` resets `pinput_start_` to `pbegin_` and
returns `pbegin_` unconditionally; since the translation unit defines
NDEBUG on its first line, the marker assertion is compiled out and no
state makes it fail. -/
theorem wraparound_unconditional_reset (w : Bool) (b : InBuf) :
    wraparound w b = some (0, { b with inputStart := 0 }) := by
  simp [wraparound, NDEBUG]

/-- C5: `reserve(n)` returns the current `pcommit_end_` and leaves the
buffer untouched when the free space suffices; otherwise it flushes and
retries against the emptied buffer; it throws `std::bad_alloc` exactly
when the total capacity is below `n`. -/
theorem output_buffer_reserve_spec (n : Nat) (b : OutputBuffer)
    (hinv : b.committed.length ≤ b.cap) :
    (n ≤ b.cap - b.committed.length →
      reserve n b = .ok (b.committed.length, b)) ∧
    (b.cap - b.committed.length < n → n ≤ b.cap →
      reserve n b = .ok (0, flush b)) ∧
    (reserve n b = .error () ↔ b.cap < n) := by
  unfold reserve
  refine ⟨fun h => ?_, fun h1 h2 => ?_, ?_⟩
  · rw [if_neg (by omega)]
  · rw [if_pos h1, if_neg (by simp only [flush_cap]; omega)]
    rfl
  · constructor
    · intro herr
      by_cases h1 : b.cap - b.committed.length < n
      · rw [if_pos h1] at herr
        by_cases h2 : (flush b).cap < n
        · simp only [flush_cap] at h2; omega
        · rw [if_neg h2] at herr; exact absurd herr (by simp)
      · rw [if_neg h1] at herr; exact absurd herr (by simp)
    · intro hcap
      rw [if_pos (by omega), if_pos (by simp only [flush_cap]; omega)]

/-- An output buffer of capacity 8 currently staging 6 bytes. -/
def cexBuf8 : OutputBuffer :=
  { cap := 8, committed := ['a', 'b', 'c', 'd', 'e', 'f'],
    sent := [], delivered := [], plan := [] }

/-- Witness for C5 on a buffer of capacity 8 holding 6 bytes: a
reservation of 2 returns the cursor unchanged, a reservation of 4
flushes first, and a reservation of 9 is exactly a failure. -/
theorem output_buffer_reserve_spec_witness :
    reserve 2 cexBuf8 = .ok (cexBuf8.committed.length, cexBuf8) ∧
    reserve 4 cexBuf8 = .ok (0, flush cexBuf8) ∧
    (reserve 9 cexBuf8 = .error () ↔ cexBuf8.cap < 9) :=
  ⟨(output_buffer_reserve_spec 2 cexBuf8 (by decide)).1 (by decide),
   (output_buffer_reserve_spec 4 cexBuf8 (by decide)).2.1 (by decide) (by decide),
   (output_buffer_reserve_spec 9 cexBuf8 (by decide)).2.2⟩

/-- C6: before waiting on the input-consumed event, a producer whose
published data has all been drained (`pcommit_end_ == pinput_start_`)
first calls `commit()`; consequently the wait is never entered in a
state where the only data in the ring (`input_start ≠ input_end`) is
unpublished (`commit_end = input_start`). -/
theorem wait_input_consumed_commits_first (b : InBuf) :
    (b.commitEnd = b.inputStart →
      wait_input_consumed b = ([.commitCall, .waitCall], commitStep b)) ∧
    (b.commitEnd ≠ b.inputStart →
      wait_input_consumed b = ([.waitCall], b)) ∧
    ((wait_input_consumed b).2.commitEnd = (wait_input_consumed b).2.inputStart →
      (wait_input_consumed b).2.inputEnd = (wait_input_consumed b).2.inputStart) := by
  unfold wait_input_consumed commitStep
  by_cases h : b.commitEnd = b.inputStart
  · rw [if_pos h]
    exact ⟨fun _ => rfl, fun hne => absurd h hne, fun hh => hh⟩
  · rw [if_neg h]
    exact ⟨fun hc => absurd hc h, fun _ => rfl, fun hh => absurd hh h⟩

/-- Witness for C6 at state (input_start 0, input_end 16,
commit_end 0): the producer commits before waiting, and the wait is
entered with everything published. -/
theorem wait_input_consumed_commits_first_witness :
    wait_input_consumed ⟨0, 16, 0⟩ = ([.commitCall, .waitCall], ⟨0, 16, 16⟩) :=
  (wait_input_consumed_commits_first ⟨0, 16, 0⟩).1 rfl

/-- C2: one attempt of `allocate_input_frame`, for an aligned request
of size at most `CAP - FRAME_ALIGNMENT` in a state with a valid read
position: with the free region contiguous (`input_start > input_end`)
the frame is claimed at `input_end` iff `size` is strictly below the
free space, advancing `input_end` by `size` modulo `CAP` and returning
the old `input_end`; with the free region split, the frame is claimed
in the tail iff `size` is strictly below the tail free space, else
claimed at `begin` — storing WRAPAROUND_MARKER at the old `input_end`
and setting `input_end` to `begin + size` — iff `size` is strictly
below the head free space; in all remaining cases the attempt waits. -/
theorem allocate_input_frame_two_cases (CAP FA size : Nat) (b : InBuf)
    (hFA : 0 < FA) (hal : size % FA = 0) (hsz : size + FA ≤ CAP)
    (hs : b.inputStart < CAP) :
    (b.inputEnd < b.inputStart →
      (size < b.inputStart - b.inputEnd →
        allocate_input_frame CAP size b =
          .grant b.inputEnd none
            { b with inputEnd := (b.inputEnd + size) % CAP }) ∧
      (b.inputStart - b.inputEnd ≤ size →
        allocate_input_frame CAP size b = .wait)) ∧
    (b.inputStart ≤ b.inputEnd →
      (size < CAP - b.inputEnd →
        allocate_input_frame CAP size b =
          .grant b.inputEnd none
            { b with inputEnd := (b.inputEnd + size) % CAP }) ∧
      (CAP - b.inputEnd ≤ size → size < b.inputStart →
        allocate_input_frame CAP size b =
          .grant 0 (some b.inputEnd) { b with inputEnd := size }) ∧
      (CAP - b.inputEnd ≤ size → b.inputStart ≤ size →
        allocate_input_frame CAP size b = .wait)) := by
  unfold allocate_input_frame advance_frame_pointer
  constructor
  · intro hAB
    constructor
    · intro hfit
      rw [if_pos hAB, if_pos hfit, if_neg (by omega)]
      rw [Nat.mod_eq_of_lt (by omega)]
    · intro hnofit
      rw [if_pos hAB, if_neg (by omega)]
  · intro hAB
    have hAB2 : ¬ b.inputEnd < b.inputStart := by omega
    refine ⟨fun hfit => ?_, fun htail hhead => ?_, fun htail hhead => ?_⟩
    · rw [if_neg hAB2, if_pos hfit, if_neg (by omega)]
      rw [Nat.mod_eq_of_lt (by omega)]
    · rw [if_neg hAB2, if_neg (by omega), if_pos hhead, if_neg (by omega)]
      simp
    · rw [if_neg hAB2, if_neg (by omega), if_neg (by omega)]

/-- Witness for C2 at CAP 32, FRAME_ALIGNMENT 8: a contiguous-case
grant, a wraparound grant, and a wait. -/
theorem allocate_input_frame_two_cases_witness :
    allocate_input_frame 32 8 ⟨24, 8, 8⟩ =
      .grant 8 none ⟨24, (8 + 8) % 32, 8⟩ ∧
    allocate_input_frame 32 16 ⟨24, 24, 24⟩ =
      .grant 0 (some 24) ⟨24, 16, 24⟩ ∧
    allocate_input_frame 32 8 ⟨8, 24, 24⟩ = .wait :=
  ⟨((allocate_input_frame_two_cases 32 8 8 ⟨24, 8, 8⟩ (by decide) (by decide)
      (by decide) (by decide)).1 (by decide)).1 (by decide),
   ((allocate_input_frame_two_cases 32 8 16 ⟨24, 24, 24⟩ (by decide) (by decide)
      (by decide) (by decide)).2 (by decide)).2.1 (by decide) (by decide),
   ((allocate_input_frame_two_cases 32 8 8 ⟨8, 24, 24⟩ (by decide) (by decide)
      (by decide) (by decide)).2 (by decide)).2.2 (by decide) (by decide)⟩

/-- `advance_frame_pointer` preserves alignment and the strict bound
when the distance is aligned and does not pass the end of the buffer. -/
theorem advance_frame_pointer_inv (CAP FA p d : Nat) (h0 : 0 < CAP)
    (hp : p % FA = 0) (hd : d % FA = 0) (hle : p + d ≤ CAP) :
    advance_frame_pointer CAP p d % FA = 0 ∧ advance_frame_pointer CAP p d < CAP := by
  unfold advance_frame_pointer
  by_cases h : CAP - (p + d) = 0
  · simp only [h, if_pos rfl]
    exact ⟨Nat.zero_mod FA, h0⟩
  · rw [if_neg h]
    refine ⟨?_, by omega⟩
    rw [Nat.add_mod, hp, hd]
    simp

/-- Every guarded operation preserves the alignment-and-bound
invariant on the input-buffer positions. -/
theorem step_preserves_InvB (CAP FA : Nat) (b b1 : InBuf) (op : BufOp)
    (h0 : 0 < CAP) (hi : InvB CAP FA b) (hstep : step CAP FA b op = some b1) :
    InvB CAP FA b1 := by
  obtain ⟨ha1, ha2, ha3, hb1, hb2, hb3⟩ := hi
  cases op with
  | alloc size =>
      simp only [step] at hstep
      by_cases hg : size % FA = 0 ∧ size + FA ≤ CAP
      · rw [if_pos hg] at hstep
        obtain ⟨hg1, hg2⟩ := hg
        unfold allocate_input_frame at hstep
        by_cases hc1 : b.inputEnd < b.inputStart
        · rw [if_pos hc1] at hstep
          by_cases hc2 : size < b.inputStart - b.inputEnd
          · rw [if_pos hc2] at hstep
            simp only [Option.some.injEq] at hstep
            subst hstep
            obtain ⟨m1, m2⟩ :=
              advance_frame_pointer_inv CAP FA b.inputEnd size h0 ha2 hg1 (by omega)
            exact ⟨ha1, m1, ha3, hb1, m2, hb3⟩
          · rw [if_neg hc2] at hstep
            simp only [Option.some.injEq] at hstep
            subst hstep
            exact ⟨ha1, ha2, ha3, hb1, hb2, hb3⟩
        · rw [if_neg hc1] at hstep
          by_cases hc2 : size < CAP - b.inputEnd
          · rw [if_pos hc2] at hstep
            simp only [Option.some.injEq] at hstep
            subst hstep
            obtain ⟨m1, m2⟩ :=
              advance_frame_pointer_inv CAP FA b.inputEnd size h0 ha2 hg1 (by omega)
            exact ⟨ha1, m1, ha3, hb1, m2, hb3⟩
          · rw [if_neg hc2] at hstep
            by_cases hc3 : size < b.inputStart
            · rw [if_pos hc3] at hstep
              simp only [Option.some.injEq] at hstep
              subst hstep
              obtain ⟨m1, m2⟩ :=
                advance_frame_pointer_inv CAP FA 0 size h0 (Nat.zero_mod FA) hg1 (by omega)
              exact ⟨ha1, m1, ha3, hb1, m2, hb3⟩
            · rw [if_neg hc3] at hstep
              simp only [Option.some.injEq] at hstep
              subst hstep
              exact ⟨ha1, ha2, ha3, hb1, hb2, hb3⟩
      · rw [if_neg hg] at hstep
        exact absurd hstep (by simp)
  | commit =>
      simp only [step, commitStep, Option.some.injEq] at hstep
      subst hstep
      exact ⟨ha1, ha2, ha2, hb1, hb2, hb2⟩
  | discard size =>
      simp only [step] at hstep
      by_cases hg : size % FA = 0 ∧ b.inputStart + size ≤ CAP
      · rw [if_pos hg] at hstep
        simp only [discard_input_frame, Option.some.injEq] at hstep
        subst hstep
        obtain ⟨m1, m2⟩ :=
          advance_frame_pointer_inv CAP FA b.inputStart size h0 ha1 hg.1 hg.2
        exact ⟨m1, ha2, ha3, m2, hb2, hb3⟩
      · rw [if_neg hg] at hstep
        exact absurd hstep (by simp)
  | wrap =>
      simp only [step, Option.some.injEq] at hstep
      subst hstep
      exact ⟨Nat.zero_mod FA, ha2, ha3, h0, hb2, hb3⟩

/-- Running any guarded operation sequence preserves the invariant. -/
theorem runOps_preserves_InvB (CAP FA : Nat) (h0 : 0 < CAP) :
    ∀ (ops : List BufOp) (b b1 : InBuf), InvB CAP FA b →
      runOps CAP FA b ops = some b1 → InvB CAP FA b1 := by
  intro ops
  induction ops with
  | nil =>
      intro b b1 hi h
      simp only [runOps, Option.some.injEq] at h
      subst h
      exact hi
  | cons op ops ih =>
      intro b b1 hi h
      simp only [runOps] at h
      cases hs : step CAP FA b op with
      | none => rw [hs] at h; exact absurd h (by simp)
      | some b2 =>
          rw [hs] at h
          exact ih b2 b1 (step_preserves_InvB CAP FA b b2 op h0 hi hs) h

/-- C3: from the fresh input buffer, every sequence of guarded producer
operations (allocate, commit) and consumer operations (discard,
wraparound) keeps `input_start`, `input_end` and `commit_end`
FRAME_ALIGNMENT-aligned and strictly below `begin + CAP` — a pointer
that would reach `begin + CAP` wraps to `begin`. -/
theorem input_buffer_positions_aligned_bounded (CAP FA : Nat)
    (ops : List BufOp) (b : InBuf) (h0 : 0 < CAP)
    (hr : runOps CAP FA freshInBuf ops = some b) :
    InvB CAP FA b :=
  runOps_preserves_InvB CAP FA h0 ops freshInBuf b
    ⟨Nat.zero_mod FA, Nat.zero_mod FA, Nat.zero_mod FA, h0, h0, h0⟩ hr

/-- Witness for C3: a concrete run at CAP 32, FRAME_ALIGNMENT 8 —
allocate, commit, discard, allocate, wraparound — ends in an invariant
state. -/
theorem input_buffer_positions_aligned_bounded_witness :
    InvB 32 8 ⟨0, 24, 8⟩ :=
  input_buffer_positions_aligned_bounded 32 8
    [.alloc 8, .commit, .discard 8, .alloc 16, .wrap] ⟨0, 24, 8⟩
    (by decide) (by decide)

/-- The errno switch written as the claim states it. -/
theorem errnoResult_eq (e : Errno) :
    errnoResult e =
      if e ∈ giveUpErrnos then .giveUp
      else if e = .enospc then .tryLater else .fatal := by
  cases e <;> decide

/-- The switch never yields SUCCESS. -/
theorem errnoResult_ne_success (e : Errno) : errnoResult e ≠ .success := by
  cases e <;> decide

/-- C7: `file_writer::write` returns SUCCESS exactly when all `count`
bytes were written, resuming internally after EINTR failures and after
partial writes; otherwise the errno of the failing call maps to the
result — the ten listed values to ERROR_GIVE_UP, ENOSPC to
ERROR_TRY_LATER, anything else thrown as fatal. -/
theorem file_writer_write_result_spec (count : Nat) (os : List WriteOutcome) :
    (file_writer_write count os = some .success ↔ deliversAll os count = true) ∧
    (∀ e, firstFailure os count = some e →
      file_writer_write count os =
        some (if e ∈ giveUpErrnos then .giveUp
              else if e = .enospc then .tryLater else .fatal)) := by
  induction os generalizing count with
  | nil =>
      cases count with
      | zero =>
          refine ⟨by simp [file_writer_write, writeLoop, deliversAll], ?_⟩
          intro e he
          simp [firstFailure] at he
      | succ c =>
          refine ⟨by simp [file_writer_write, writeLoop, deliversAll], ?_⟩
          intro e he
          simp [firstFailure] at he
  | cons o os ih =>
      cases count with
      | zero =>
          refine ⟨by simp [file_writer_write, writeLoop, deliversAll], ?_⟩
          intro e he
          simp [firstFailure] at he
      | succ c =>
          cases o with
          | ok n =>
              refine ⟨?_, ?_⟩
              · have := (ih (c + 1 - n)).1
                simpa [file_writer_write, writeLoop, deliversAll] using this
              · intro e he
                have he2 : firstFailure os (c + 1 - n) = some e := by
                  simpa [firstFailure] using he
                have := (ih (c + 1 - n)).2 e he2
                simpa [file_writer_write, writeLoop] using this
          | err e0 =>
              by_cases hint : e0 = .eintr
              · subst hint
                refine ⟨?_, ?_⟩
                · have := (ih (c + 1)).1
                  simpa [file_writer_write, writeLoop, deliversAll] using this
                · intro e he
                  have he2 : firstFailure os (c + 1) = some e := by
                    simpa [firstFailure] using he
                  have := (ih (c + 1)).2 e he2
                  simpa [file_writer_write, writeLoop] using this
              · refine ⟨?_, ?_⟩
                · simp [file_writer_write, writeLoop, deliversAll, hint,
                    errnoResult_ne_success e0]
                · intro e he
                  have he2 : e = e0 := by
                    simp [firstFailure, hint] at he
                    exact he.symm
                  subst he2
                  simp [file_writer_write, writeLoop, hint, errnoResult_eq]

/-- Witness for C7: three bytes, an EINTR failure, a partial write of
two bytes, then ENOSPC — the result is ERROR_TRY_LATER. -/
theorem file_writer_write_result_spec_witness :
    file_writer_write 3 [.err .eintr, .ok 2, .err .enospc] =
      some (if Errno.enospc ∈ giveUpErrnos then .giveUp
            else if Errno.enospc = .enospc then .tryLater else .fatal) :=
  (file_writer_write_result_spec 3 [.err .eintr, .ok 2, .err .enospc]).2
    .enospc (by decide)

theorem outStream_writeCommit (s : List Char) (b : OutputBuffer) :
    outStream (writeCommit s b) = outStream b ++ s := by
  simp [outStream, writeCommit]

/-- A reservation within capacity succeeds and leaves the byte stream
placed in the buffer unchanged. -/
theorem reserve_ok (n : Nat) (b : OutputBuffer) (h : n ≤ b.cap) :
    ∃ q, reserve n b = .ok q ∧ outStream q.2 = outStream b ∧ q.2.cap = b.cap := by
  unfold reserve
  by_cases hf : b.cap - b.committed.length < n
  · rw [if_pos hf, if_neg (by simp only [flush_cap]; omega)]
    exact ⟨((flush b).committed.length, flush b), rfl, outStream_flush b, rfl⟩
  · rw [if_neg hf]
    exact ⟨(b.committed.length, b), rfl, rfl, rfl⟩

/-- C8: `generic_format_int` on any specifier other than `d` —
including `x` and `b` — reports "unhandled" (false) and leaves both
the format pointer and the output buffer untouched; on `d` it writes
the decimal representation of the value, commits it, and advances the
format pointer by one character. -/
theorem generic_format_int_spec (v : Int) (fmt : List Char) (b : OutputBuffer) :
    (fmt.head? ≠ some 'd' → generic_format_int v fmt b = .ok (false, fmt, b)) ∧
    (∀ rest, fmt = 'd' :: rest → (decimalRep v).length ≤ b.cap →
      ∃ b1, generic_format_int v fmt b = .ok (true, rest, b1) ∧
        outStream b1 = outStream b ++ decimalRep v) := by
  constructor
  · intro h
    match fmt with
    | [] => rfl
    | f :: rest =>
        have hf : ¬ f = 'd' := by
          intro hh
          exact h (by rw [hh]; rfl)
        simp only [generic_format_int]
        rw [if_neg hf]
        by_cases hx : f = 'x'
        · rw [if_pos hx]
        · rw [if_neg hx]
          by_cases hb : f = 'b'
          · rw [if_pos hb]
          · rw [if_neg hb]
  · intro rest hrest hcap
    subst hrest
    obtain ⟨b1, hab, hstream, _⟩ := appendBytes_ok (decimalRep v) b hcap
    refine ⟨b1, ?_, hstream⟩
    have hdef : generic_format_int v ('d' :: rest) b =
        Except.bind (appendBytes (decimalRep v) b)
          (fun b2 => Except.ok (true, rest, b2)) := rfl
    rw [hdef, hab]
    rfl

/-- An empty output buffer of the given capacity with an untouched
writer. -/
def mkOutBuf (cap : Nat) : OutputBuffer :=
  { cap := cap, committed := [], sent := [], delivered := [], plan := [] }

/-- Witness for C8: formatting -12 against "d!" writes "-12" and
leaves "!" as the format remainder; formatting 7 against "x" is
unhandled and changes nothing. -/
theorem generic_format_int_spec_witness :
    (∃ b1, generic_format_int (-12) ('d' :: ['!']) (mkOutBuf 8) =
        .ok (true, ['!'], b1) ∧
      outStream b1 = outStream (mkOutBuf 8) ++ decimalRep (-12)) ∧
    generic_format_int 7 ['x'] (mkOutBuf 8) = .ok (false, ['x'], mkOutBuf 8) :=
  ⟨(generic_format_int_spec (-12) ('d' :: ['!']) (mkOutBuf 8)).2 ['!'] rfl
      (by decide),
   (generic_format_int_spec 7 ['x'] (mkOutBuf 8)).1 (by decide)⟩

/-- C10: `generic_format_float` succeeds only on specifier `d`: it then
reserves room sized from the value's digit count, lets `sprintf` with
`%f` (six fractional digits) write the rendering, commits exactly the
byte count `sprintf` reported, and advances the format pointer by one;
every other specifier yields false with the format pointer and the
buffer untouched. -/
theorem generic_format_float_spec (v : FloatVal) (fmt : List Char)
    (b : OutputBuffer) :
    (fmt.head? ≠ some 'd' → generic_format_float v fmt b = .ok (false, fmt, b)) ∧
    (∀ rest, fmt = 'd' :: rest → 1 + v.intDigits + 1 + 6 + 1 ≤ b.cap →
      ∃ b1, generic_format_float v fmt b = .ok (true, rest, b1) ∧
        outStream b1 = outStream b ++ v.rendered) := by
  constructor
  · intro h
    match fmt with
    | [] => rfl
    | f :: rest =>
        have hf : ¬ f = 'd' := by
          intro hh
          exact h (by rw [hh]; rfl)
        simp only [generic_format_float]
        rw [if_neg hf]
  · intro rest hrest hcap
    subst hrest
    obtain ⟨q, hres, hstream, _⟩ := reserve_ok (1 + v.intDigits + 1 + 6 + 1) b hcap
    refine ⟨writeCommit v.rendered q.2, ?_, ?_⟩
    · have hdef : generic_format_float v ('d' :: rest) b =
          Except.bind (reserve (1 + v.intDigits + 1 + 6 + 1) b)
            (fun rb => Except.ok (true, rest, writeCommit v.rendered rb.2)) := rfl
      rw [hdef, hres]
      rfl
    · rw [outStream_writeCommit, hstream]

/-- Witness for C10: a value rendering as "0.500000" with one integer
digit, formatted against "d" into a capacity-16 buffer. -/
theorem generic_format_float_spec_witness :
    ∃ b1, generic_format_float ⟨1, ('0' :: '.' :: ['5', '0', '0', '0', '0', '0'])⟩
        ('d' :: []) (mkOutBuf 16) = .ok (true, [], b1) ∧
      outStream b1 = outStream (mkOutBuf 16) ++
        ('0' :: '.' :: ['5', '0', '0', '0', '0', '0']) :=
  (generic_format_float_spec ⟨1, ('0' :: '.' :: ['5', '0', '0', '0', '0', '0'])⟩
    ('d' :: []) (mkOutBuf 16)).2 [] rfl (by decide)

/-- A successful `appendBytes` extends the byte stream placed in the
buffer by exactly the appended bytes. -/
theorem appendBytes_inv (s : List Char) (b b1 : OutputBuffer)
    (h : appendBytes s b = .ok b1) :
    outStream b1 = outStream b ++ s := by
  unfold appendBytes reserve at h
  by_cases hf : b.cap - b.committed.length < s.length
  · rw [if_pos hf] at h
    by_cases hc : (flush b).cap < s.length
    · rw [if_pos hc] at h
      exact Except.noConfusion h
    · rw [if_neg hc] at h
      have h2 : writeCommit s (flush b) = b1 := Except.ok.inj h
      rw [← h2, outStream_writeCommit, outStream_flush]
  · rw [if_neg hf] at h
    have h2 : writeCommit s b = b1 := Except.ok.inj h
    rw [← h2, outStream_writeCommit]

/-- Inversion of a scan arm that flushes the pending chunk and stops
with result `r0`. -/
theorem bind_append_ok (chunk : List Char) (b b1 : OutputBuffer)
    (r0 r : Option (List Char))
    (h : (do
        let b2 ← appendBytes chunk b
        Except.ok (r0, b2)) =
      (Except.ok (r, b1) : Except Unit (Option (List Char) × OutputBuffer))) :
    outStream b1 = outStream b ++ chunk ∧ r = r0 := by
  cases happ : appendBytes chunk b with
  | error e =>
      rw [happ] at h
      exact Except.noConfusion h
  | ok b2 =>
      rw [happ] at h
      have h3 : (r0, b2) = (r, b1) := Except.ok.inj h
      have hr : r0 = r := congrArg Prod.fst h3
      have hb : b2 = b1 := congrArg Prod.snd h3
      subst hb
      exact ⟨appendBytes_inv chunk b b2 happ, hr.symm⟩

theorem collapseSpec_cons_ne (c : Char) (rest : List Char) (h : ¬ c = '%') :
    collapseSpec (c :: rest) =
      (c :: (collapseSpec rest).1, (collapseSpec rest).2) := by
  cases rest with
  | nil => rw [collapseSpec.eq_2, if_neg h]
  | cons c2 rest2 => rw [collapseSpec.eq_3, if_neg h]

theorem collapseSpec_pct_other (c2 : Char) (rest2 : List Char) (h : ¬ c2 = '%') :
    collapseSpec ('%' :: c2 :: rest2) = ([], some (c2 :: rest2)) := by
  rw [collapseSpec.eq_3, if_pos rfl, if_neg h]

theorem collapseSpec_pct_pct (rest2 : List Char) :
    collapseSpec ('%' :: '%' :: rest2) =
      ('%' :: (collapseSpec rest2).1, (collapseSpec rest2).2) := by
  rw [collapseSpec.eq_3, if_pos rfl, if_pos rfl]

/-- Soundness of the scanning loop against the claim-side walk: the
bytes placed in the output buffer are the pending literal segment
followed by the collapsed prefix, and the returned pointer is the one
the walk yields. -/
theorem nextSpecScan_sound (n : Nat) :
    ∀ (fmt : List Char), fmt.length ≤ n →
      ∀ (chunk : List Char) (b : OutputBuffer) (r : Option (List Char))
        (b1 : OutputBuffer),
        nextSpecScan chunk fmt b = .ok (r, b1) →
        outStream b1 = outStream b ++ chunk ++ (collapseSpec fmt).1 ∧
          r = (collapseSpec fmt).2 := by
  induction n with
  | zero =>
      intro fmt hlen chunk b r b1 h
      have hfmt : fmt = [] := List.length_eq_zero.mp (Nat.le_zero.mp hlen)
      subst hfmt
      rw [nextSpecScan.eq_1] at h
      obtain ⟨hs, hr⟩ := bind_append_ok chunk b b1 none r h
      constructor
      · rw [collapseSpec.eq_1]
        simpa using hs
      · rw [collapseSpec.eq_1]
        exact hr
  | succ n ih =>
      intro fmt hlen chunk b r b1 h
      cases fmt with
      | nil =>
          rw [nextSpecScan.eq_1] at h
          obtain ⟨hs, hr⟩ := bind_append_ok chunk b b1 none r h
          constructor
          · rw [collapseSpec.eq_1]
            simpa using hs
          · rw [collapseSpec.eq_1]
            exact hr
      | cons c rest =>
          by_cases hc : c = '%'
          · subst hc
            cases rest with
            | nil =>
                rw [nextSpecScan.eq_2, if_pos rfl] at h
                obtain ⟨hs, hr⟩ := bind_append_ok chunk b b1 (some []) r h
                constructor
                · rw [collapseSpec.eq_2, if_pos rfl]
                  simpa using hs
                · rw [collapseSpec.eq_2, if_pos rfl]
                  exact hr
            | cons c2 rest2 =>
                by_cases hc2 : c2 = '%'
                · subst hc2
                  rw [nextSpecScan.eq_3, if_pos rfl, if_pos rfl] at h
                  cases happ : appendBytes chunk b with
                  | error e =>
                      rw [happ] at h
                      exact Except.noConfusion h
                  | ok b2 =>
                      rw [happ] at h
                      have h4 : (do
                          let b3 ← appendBytes ['%'] b2
                          nextSpecScan [] rest2 b3) =
                          (Except.ok (r, b1) :
                            Except Unit (Option (List Char) × OutputBuffer)) := h
                      cases happ2 : appendBytes ['%'] b2 with
                      | error e =>
                          rw [happ2] at h4
                          exact Except.noConfusion h4
                      | ok b3 =>
                          rw [happ2] at h4
                          have h5 : nextSpecScan [] rest2 b3 = .ok (r, b1) := h4
                          have hlen2 : rest2.length ≤ n := by
                            simp only [List.length_cons] at hlen
                            omega
                          obtain ⟨hs, hr⟩ := ih rest2 hlen2 [] b3 r b1 h5
                          have e2 : outStream b2 = outStream b ++ chunk :=
                            appendBytes_inv chunk b b2 happ
                          have e3 : outStream b3 = outStream b2 ++ ['%'] :=
                            appendBytes_inv ['%'] b2 b3 happ2
                          constructor
                          · rw [collapseSpec_pct_pct, hs, e3, e2]
                            simp
                          · rw [collapseSpec_pct_pct]
                            exact hr
                · rw [nextSpecScan.eq_3, if_pos rfl, if_neg hc2] at h
                  obtain ⟨hs, hr⟩ :=
                    bind_append_ok chunk b b1 (some (c2 :: rest2)) r h
                  constructor
                  · rw [collapseSpec_pct_other c2 rest2 hc2]
                    simpa using hs
                  · rw [collapseSpec_pct_other c2 rest2 hc2]
                    exact hr
          · have h2 : nextSpecScan (chunk ++ [c]) rest b = .ok (r, b1) := by
              cases rest with
              | nil =>
                  rw [nextSpecScan.eq_2, if_neg hc] at h
                  exact h
              | cons c2 rest2 =>
                  rw [nextSpecScan.eq_3, if_neg hc] at h
                  exact h
            have hlen2 : rest.length ≤ n := by
              simp only [List.length_cons] at hlen
              omega
            obtain ⟨hs, hr⟩ := ih rest hlen2 (chunk ++ [c]) b r b1 h2
            constructor
            · rw [collapseSpec_cons_ne c rest hc, hs]
              simp
            · rw [collapseSpec_cons_ne c rest hc]
              exact hr

/-- C9: `next_specifier` copies the literal bytes before a `%` verbatim
into the output buffer, collapses each doubled `%%` to a single `%`
byte, returns the characters following the first undoubled `%` when one
exists, and returns null after copying the remaining literal bytes when
none remains — i.e. it realises the claim-side walk `collapseSpec`. -/
theorem next_specifier_collapses_percents (fmt : List Char) (b : OutputBuffer)
    (r : Option (List Char)) (b1 : OutputBuffer)
    (h : next_specifier fmt b = .ok (r, b1)) :
    outStream b1 = outStream b ++ (collapseSpec fmt).1 ∧
      r = (collapseSpec fmt).2 := by
  have := nextSpecScan_sound fmt.length fmt le_rfl [] b r b1 h
  simpa using this

/-- The buffer produced by running `next_specifier` on "a%%b%x" from an
empty capacity-8 buffer: the literal bytes "a%b" were staged. -/
def nsWitnessBuf : OutputBuffer :=
  { cap := 8, committed := ['a', '%', 'b'], sent := [], delivered := [],
    plan := [] }

/-- Witness for C9: on "a%%b%x" the copied bytes are "a%b" (the `%%`
collapsed) and the returned pointer rests on "x". -/
theorem next_specifier_collapses_percents_witness :
    outStream nsWitnessBuf =
      outStream (mkOutBuf 8) ++
        (collapseSpec ('a' :: '%' :: '%' :: 'b' :: '%' :: 'x' :: [])).1 ∧
    (some ['x'] : Option (List Char)) =
      (collapseSpec ('a' :: '%' :: '%' :: 'b' :: '%' :: 'x' :: [])).2 :=
  next_specifier_collapses_percents ('a' :: '%' :: '%' :: 'b' :: '%' :: 'x' :: [])
    (mkOutBuf 8) (some ['x']) nsWitnessBuf rfl

end Reckless
